import Mathlib

/-!
Verification of the collaborative-text-editor CRDT engine.

This file gives a shallow embedding of the repository's source files and
settles the frozen claims about them.

Embedded components:

* `MainEditor` — `src/src/client/utils/CRDTTextEditor.js`: the CRDT editor
  variant that builds character ids `[lamportTime, siteId, idCounter]` and
  positions remote inserts by the carried `position` index.
* `Part001` — `src/unnamed/part_001`: the CRDT editor variant that allocates
  fractional position identifiers via `generateIdBetween` and positions
  remote inserts by binary search (`findIndexForId`).
* `Relay` — the WebSocket relay server (`src/unnamed/part_000`,
  `src/src/server/index.js`).
* `OfflineQueueM` — `src/unnamed/part_002` (`OfflineQueue`).

JavaScript idioms are modelled explicitly: `arr[i] || d` becomes a `getD`
with the zero-falsiness made explicit, `Array.prototype.splice` insertion
becomes `take ++ _ :: drop` with the JS index normalisation, the
`Map`-keyed tombstone store becomes a `Finset String` keyed by the
`id.join(',')` string, and `findIndex` + conditional `splice(i, 1)` becomes
`List.eraseP`.
-/

namespace MainEditor

/-- A JavaScript value that can appear as a component of a character id in
`CRDTTextEditor.js`: `localInsert` builds ids `[lamportTime, siteId, idCounter]`
whose middle component is the (string) site id. -/
inductive JsVal where
  | num (n : Int)
  | str (s : String)
deriving DecidableEq, Repr

/-- JavaScript string conversion, as used by `Array.prototype.join`. -/
def jsValToString : JsVal → String
  | .num n => toString n
  | .str s => s

/-- The `id.join(',')` string used as tombstone / duplicate key. -/
def key (id : List JsVal) : String :=
  String.intercalate "," (id.map jsValToString)

/-- JavaScript subtraction `a - b`: `NaN` (modelled as `none`) unless both
operands are numbers. -/
def jsSub : JsVal → JsVal → Option Int
  | .num a, .num b => some (a - b)
  | _, _ => none

/-- `compareIds` from `CRDTTextEditor.js` lines 56-62: first differing
component decides (by JS subtraction), otherwise the length difference.
`none` models a `NaN` result (subtracting a string component). -/
def compareIds : List JsVal → List JsVal → Option Int
  | x :: xs, y :: ys => if x = y then compareIds xs ys else jsSub x y
  | xs, ys => some ((xs.length : Int) - (ys.length : Int))

/-- The JS test `comparison < 0`, which is `false` for `NaN`. -/
def ltB : Option Int → Bool
  | some v => decide (v < 0)
  | none => false

/-- `BASE` from `generateIdBetween` (line 15). -/
def BASE : Int := 1000000

/-- Length of an optional id vector (`null` has no components). -/
def lenO : Option (List Int) → Nat
  | none => 0
  | some l => l.length

/-- The `while (arr.length <= depth) arr.push(x)` extension loop
(lines 49-50): pad `l` with `x` up to length `n`. -/
def padTo (l : List Int) (n : Nat) (x : Int) : List Int :=
  l ++ List.replicate (n - l.length) x

/-- `arr[depth] || 0`: missing components and the (falsy) component `0`
both give `0`, i.e. exactly `List.getD`. -/
def getOr0 (l : List Int) (depth : Nat) : Int := l.getD depth 0

/-- `arr[depth] || d` for a non-zero default `d`: a missing component or a
(falsy) `0` component yields `d`. -/
def getOrD (l : List Int) (depth : Nat) (d : Int) : Int :=
  if l.getD depth 0 = 0 then d else l.getD depth 0

/-- `generateIdBetween` from `CRDTTextEditor.js` lines 14-54, on integer
id vectors (`none` models a `null` bound). -/
def generateIdBetween : Option (List Int) → Option (List Int) → Nat → List Int
  | none, none, _ => [BASE]
  | none, some next, depth =>
    let nextPos := getOr0 next depth
    if 1 < nextPos then next.take depth ++ [(nextPos).fdiv 2]
    else next.take depth ++ [0, BASE]
  | some prev, none, depth =>
    let prevPos := getOr0 prev depth
    prev.take depth ++ [prevPos + BASE]
  | some prev, some next, depth =>
    let prevPos := getOr0 prev depth
    let nextPos := getOrD next depth (BASE * 2)
    if h : prevPos < nextPos - 1 then
      prev.take depth ++ [(prevPos + nextPos).fdiv 2]
    else
      generateIdBetween (some (padTo prev (depth + 1) 0))
        (some (padTo next (depth + 1) (BASE * 2))) (depth + 1)
termination_by p n depth => max (lenO p) (lenO n) + 1 - depth
decreasing_by
  have h' : ¬ getOr0 prev depth < getOrD next depth (BASE * 2) - 1 := h
  have hlen : depth < prev.length ∨ depth < next.length := by
    by_cases hz : next.getD depth 0 = 0
    · left
      by_contra hlt
      have h0 : prev.getD depth 0 = 0 := List.getD_eq_default _ _ (by omega)
      apply h'
      simp only [getOr0, getOrD, h0, hz, BASE]
      norm_num
    · right
      by_contra hlt
      exact hz (List.getD_eq_default _ _ (by omega))
  simp only [lenO, padTo, List.length_append, List.length_replicate]
  omega

/-- An operation as produced and consumed by `CRDTTextEditor.js`.
Fields absent on a given JS object (`value` and `position` on deletes)
are modelled by their JS-behavioural defaults. -/
structure Operation where
  type : String
  id : List JsVal
  value : String := ""
  timestamp : Int
  siteId : String := ""
  position : Option Int := none
deriving DecidableEq, Repr

/-- A character record stored in `this.data`. -/
structure Character where
  id : List JsVal
  value : String
  timestamp : Int
  siteId : String
  position : Int
deriving DecidableEq, Repr

/-- Default character, for total modelling of in-bounds `data[index]`. -/
def chDefault : Character := ⟨[], "", 0, "", 0⟩

/-- The replica state of a `CRDTTextEditor` instance: `siteId`,
`lamportTime`, `data` (live sequence), `tombstones` (a `Map` keyed by the
joined id string), `idCounter`. -/
structure State where
  siteId : String
  lamportTime : Int
  data : List Character
  tombstones : Finset String
  idCounter : Int
deriving DecidableEq

/-- A freshly constructed editor (`constructor(siteId)`). -/
def emptyState (siteId : String) : State := ⟨siteId, 0, [], ∅, 0⟩

/-- JS `splice(i, 0, c)` index normalisation: negative indices count from
the end (clamped at 0), positive ones are clamped at the length. -/
def jsSpliceIndex (len : Nat) (i : Int) : Nat :=
  (if i < 0 then max ((len : Int) + i) 0 else min i (len : Int)).toNat

/-- JS `arr.splice(i, 0, c)`: insert `c` at the normalised index. -/
def spliceInsert (l : List Character) (i : Int) (c : Character) : List Character :=
  let n := jsSpliceIndex l.length i
  l.take n ++ c :: l.drop n

/-- `localInsert(index, char)` (lines 86-113): increments the clock and
counter, builds id `[lamportTime, siteId, idCounter]`, splices the new
character in at `index` (with no validation), and returns the operation. -/
def localInsert (s : State) (index : Int) (char : String) : State × Operation :=
  let lam := s.lamportTime + 1
  let cnt := s.idCounter + 1
  let newId : List JsVal := [.num lam, .str s.siteId, .num cnt]
  let c : Character := ⟨newId, char, lam, s.siteId, index⟩
  ({ s with lamportTime := lam, idCounter := cnt, data := spliceInsert s.data index c },
   { type := "insert", id := newId, value := char, timestamp := lam,
     siteId := s.siteId, position := some index })

/-- `localDelete(index)` (lines 119-141): out-of-range indices return
`null` with no state change; otherwise tombstone the character's key and
remove it. -/
def localDelete (s : State) (index : Int) : State × Option Operation :=
  if index < 0 ∨ (s.data.length : Int) ≤ index then (s, none)
  else
    let c := s.data.getD index.toNat chDefault
    let lam := s.lamportTime + 1
    ({ s with lamportTime := lam,
              tombstones := insert (key c.id) s.tombstones,
              data := s.data.eraseIdx index.toNat },
     some { type := "delete", id := c.id, timestamp := lam, siteId := s.siteId })

/-- `applyRemoteOperation(operation)` (lines 154-211): advance the Lamport
clock, then dispatch on `operation.type`.  Inserts are dropped when
tombstoned or already present, otherwise spliced in at
`min(operation.position || 0, data.length)`; deletes tombstone the key and
remove the first matching character. -/
def applyRemoteOperation (s : State) (op : Operation) : State :=
  let lam := max s.lamportTime op.timestamp + 1
  if op.type = "insert" then
    let k := key op.id
    if k ∈ s.tombstones then { s with lamportTime := lam }
    else if ∃ c ∈ s.data, key c.id = k then { s with lamportTime := lam }
    else
      let c : Character := ⟨op.id, op.value, op.timestamp, op.siteId, op.position.getD 0⟩
      let insertPos : Int := min (op.position.getD 0) (s.data.length : Int)
      { s with lamportTime := lam, data := spliceInsert s.data insertPos c }
  else if op.type = "delete" then
    let k := key op.id
    { s with lamportTime := lam,
             tombstones := insert k s.tombstones,
             data := s.data.eraseP (fun c => decide (key c.id = k)) }
  else { s with lamportTime := lam }

/-- Apply a list of remote operations in order. -/
def applyOps (s : State) (ops : List Operation) : State :=
  ops.foldl applyRemoteOperation s

end MainEditor

namespace Part001

/-- `compareIds` from `src/unnamed/part_001` lines 27-33: ids are pure
integer vectors there; the first differing component decides, otherwise
the length difference. -/
def compareIds : List Int → List Int → Int
  | x :: xs, y :: ys => if x = y then compareIds xs ys else x - y
  | xs, ys => (xs.length : Int) - (ys.length : Int)

/-- The `id.join(',')` string used as tombstone / duplicate key. -/
def key (id : List Int) : String :=
  String.intercalate "," (id.map (fun n => toString n))

/-- `generateIdBetween` from `part_001` lines 9-25.  `prevPos`/`nextPos`
are always numbers (the `|| 0` fallback), so the two
`=== undefined` branches of the source are unreachable and omitted. -/
def generateIdBetween (prevId nextId : Option (List Int)) (depth : Nat) : List Int :=
  if _hlt : (prevId.getD []).getD depth 0 < (nextId.getD []).getD depth 0 - 1 then
    (prevId.getD []).take depth ++
      [((prevId.getD []).getD depth 0 + (nextId.getD []).getD depth 0).fdiv 2]
  else if heq : (prevId.getD []).getD depth 0 = (nextId.getD []).getD depth 0 - 1 then
    generateIdBetween prevId nextId (depth + 1)
  else [1]
termination_by max (prevId.getD []).length (nextId.getD []).length + 1 - depth
decreasing_by
  have hlen : depth < (prevId.getD []).length ∨ depth < (nextId.getD []).length := by
    by_cases hz : (prevId.getD []).getD depth 0 = 0
    · right
      by_contra hlt2
      have h0 : (nextId.getD []).getD depth 0 = 0 := List.getD_eq_default _ _ (by omega)
      rw [hz, h0] at heq
      omega
    · left
      by_contra hlt2
      exact hz (List.getD_eq_default _ _ (by omega))
  omega

/-- An operation as consumed by `part_001`'s `applyRemoteOperation`:
ids are integer vectors. -/
structure Operation where
  type : String
  id : List Int
  value : String := ""
  timestamp : Int
  siteId : String := ""
deriving DecidableEq, Repr

/-- A character record stored in `this.data`. -/
structure Character where
  id : List Int
  value : String
  timestamp : Int
  siteId : String
deriving DecidableEq, Repr

/-- Default character, for total modelling of in-bounds `data[mid]`. -/
def chDefault : Character := ⟨[], "", 0, ""⟩

/-- The replica state of a `part_001` editor instance. -/
structure State where
  siteId : String
  lamportTime : Int
  data : List Character
  tombstones : Finset String
deriving DecidableEq

/-- A freshly constructed editor (`constructor(siteId)`). -/
def emptyState (siteId : String) : State := ⟨siteId, 0, [], ∅⟩

/-- The `while (low < high)` binary-search loop of `findIndexForId`
(lines 35-51). -/
def bsearchLoop (data : List Character) (targetId : List Int) (low high : Nat) : Nat :=
  if _h : low < high then
    let mid := (low + high) / 2
    if compareIds (data.getD mid chDefault).id targetId < 0 then
      bsearchLoop data targetId (mid + 1) high
    else
      bsearchLoop data targetId low mid
  else low
termination_by high - low
decreasing_by
  · omega
  · omega

/-- `findIndexForId(targetId)`: binary search over `this.data`. -/
def findIndexForId (data : List Character) (targetId : List Int) : Nat :=
  bsearchLoop data targetId 0 data.length

/-- JS `arr.splice(i, 0, c)` at a natural index (the binary search result
is always within `[0, data.length]`). -/
def spliceInsert (l : List Character) (i : Nat) (c : Character) : List Character :=
  l.take i ++ c :: l.drop i

/-- The character record built from a remote insert operation
(lines 116-121). -/
def charOf (op : Operation) : Character :=
  ⟨op.id, op.value, op.timestamp, op.siteId⟩

/-- `applyRemoteOperation(operation)` from `part_001` lines 104-139:
advance the Lamport clock; inserts are dropped when tombstoned or already
present, otherwise inserted at the `findIndexForId` position; deletes
tombstone the key and remove the first matching character. -/
def applyRemoteOperation (s : State) (op : Operation) : State :=
  let lam := max s.lamportTime op.timestamp + 1
  if op.type = "insert" then
    let k := key op.id
    if k ∈ s.tombstones then { s with lamportTime := lam }
    else if ∃ c ∈ s.data, key c.id = k then { s with lamportTime := lam }
    else
      { s with lamportTime := lam,
               data := spliceInsert s.data (findIndexForId s.data op.id) (charOf op) }
  else if op.type = "delete" then
    let k := key op.id
    { s with lamportTime := lam,
             tombstones := insert k s.tombstones,
             data := s.data.eraseP (fun c => decide (key c.id = k)) }
  else { s with lamportTime := lam }

/-- Apply a list of remote operations in order. -/
def applyOps (s : State) (ops : List Operation) : State :=
  ops.foldl applyRemoteOperation s

/-- The id keys of the delete operations in a list. -/
def deleteKeys (ops : List Operation) : List String :=
  (ops.filter (fun o => decide (o.type = "delete"))).map (fun o => key o.id)

/-- A list of operations is compatible when no two distinct insert
operations share an identifier key: the situation `generateIdBetween` is
intended to guarantee. -/
def Compatible (ops : List Operation) : Prop :=
  ∀ o1 ∈ ops, ∀ o2 ∈ ops,
    o1.type = "insert" → o2.type = "insert" → key o1.id = key o2.id → o1 = o2

/-- The live sequence is strictly ascending in the `compareIds` order. -/
def DataSorted (l : List Character) : Prop :=
  l.Pairwise (fun a b => compareIds a.id b.id < 0)

/-- The id keys of the live sequence are pairwise distinct. -/
def KeysNodup (l : List Character) : Prop :=
  (l.map (fun c => key c.id)).Nodup

end Part001

namespace Relay

/-- `WebSocket.OPEN`. -/
def OPEN : Nat := 1

/-- A connected participant's socket: an identity (modelling JS object
identity in the `clients` set) and its `readyState`. -/
structure Client where
  cid : Nat
  readyState : Nat
deriving DecidableEq, Repr

/-- The operation object embedded in a client message.  The relay only
reads its `id` field (for acknowledgements) and otherwise forwards the
object verbatim; the rest of the object is kept opaque as `payload`.
JS truthiness of `id` is `some s` with `s ≠ ""`. -/
structure WireOp where
  id : Option String
  payload : String
deriving DecidableEq, Repr

/-- JS truthiness of the optional `operation.id` string. -/
def idTruthy : Option String → Bool
  | none => false
  | some s => decide (s ≠ "")

/-- A parsed client→relay message (`{type, operation, isSync}`). -/
structure ClientMsg where
  type : String
  operation : WireOp
  isSync : Bool
deriving DecidableEq, Repr

/-- A relay→client message. -/
inductive ServerMsg where
  | operation (op : WireOp)
  | operationAck (operationId : String) (success : Bool)
  | usersUpdate (count : Int)
deriving DecidableEq, Repr

/-- One `client.send(...)` call: destination socket identity and message. -/
structure Send where
  dest : Nat
  msg : ServerMsg
deriving DecidableEq, Repr

/-- `broadcast(data, excludeWs)` from `part_000` lines 75-82: send `data`
to every registered client other than `excludeWs` whose socket is open. -/
def broadcast (clients : List Client) (data : ServerMsg) (excludeCid : Option Nat) :
    List Send :=
  (clients.filter (fun c => decide (excludeCid ≠ some c.cid ∧ c.readyState = OPEN))).map
    (fun c => ⟨c.cid, data⟩)

/-- The `ws.on('message')` handler from `part_000` lines 29-62, as a
function from the parse result (`none` = `JSON.parse` threw) to the list
of sends performed and an uncaught-error flag.

On malformed input the `catch` block evaluates `data.isSync`, but `data`
is `const`-scoped to the `try` block, so a `ReferenceError` is raised and
no acknowledgement is ever sent: the result is `([], true)`. -/
def handleMessage (clients : List Client) (sender : Client) (parsed : Option ClientMsg) :
    List Send × Bool :=
  match parsed with
  | none => ([], true)
  | some data =>
    if data.type = "operation" then
      let fanout := broadcast clients (.operation data.operation) (some sender.cid)
      if data.isSync && idTruthy data.operation.id then
        (fanout ++ [⟨sender.cid, .operationAck (data.operation.id.getD "") true⟩], false)
      else (fanout, false)
    else ([], false)

end Relay

namespace OfflineQueueM

/-- A CRDT operation as passed to `OfflineQueue.enqueue` by
`useWebSocket` (`offlineQueue.enqueue(data.operation)`). -/
structure COp where
  type : String
  id : List Int
  value : String
  timestamp : Int
  siteId : String
deriving DecidableEq, Repr

/-- A queued record: the spread `{...operation, queuedAt, id}` — note the
spread's `id` field is overwritten by the generated queue id string. -/
structure QueuedOperation where
  type : String
  value : String
  timestamp : Int
  siteId : String
  queuedAt : Int
  id : String
deriving DecidableEq, Repr

/-- The queue state: the in-memory `operations` array and the
`localStorage` copy written by `saveToStorage` (success path). -/
structure Queue where
  operations : List QueuedOperation
  storage : List QueuedOperation
deriving DecidableEq, Repr

/-- `generateOperationId()` from `part_002` lines 85-87; `now` models
`Date.now()` and `rand` the random suffix. -/
def generateOperationId (now : Int) (rand : String) : String :=
  "queue-" ++ toString now ++ "-" ++ rand

/-- `enqueue(operation)` from `part_002` lines 16-26: build the record by
spreading `operation` and then setting `queuedAt` and `id` (overwriting
the operation's own `id`), append it, save to storage, return it. -/
def enqueue (q : Queue) (op : COp) (now : Int) (rand : String) :
    Queue × QueuedOperation :=
  let qop : QueuedOperation :=
    ⟨op.type, op.value, op.timestamp, op.siteId, now, generateOperationId now rand⟩
  let ops := q.operations ++ [qop]
  (⟨ops, ops⟩, qop)

/-- `getAll()`: a copy of the queued operations, in order. -/
def getAll (q : Queue) : List QueuedOperation := q.operations

end OfflineQueueM

namespace MainEditor

/-- First concrete remote insert used to refute convergence of the
position-indexed variant: value `A` at carried position 0. -/
def cexOpA : Operation :=
  { type := "insert", id := [.num 1], value := "A", timestamp := 1,
    siteId := "r1", position := some 0 }

/-- Second concrete remote insert used to refute convergence of the
position-indexed variant: value `B` at carried position 0. -/
def cexOpB : Operation :=
  { type := "insert", id := [.num 2], value := "B", timestamp := 1,
    siteId := "r2", position := some 0 }

end MainEditor

namespace Part001

theorem compareIds_eq_zero_iff (x y : List Int) : compareIds x y = 0 ↔ x = y := by
  induction x generalizing y with
  | nil =>
    cases y with
    | nil => simp [compareIds]
    | cons b ys => simp [compareIds]; omega
  | cons a xs ih =>
    cases y with
    | nil => simp [compareIds]; omega
    | cons b ys =>
      by_cases hab : a = b
      · simp [compareIds, hab, ih]
      · simp only [compareIds, if_neg hab]
        constructor
        · intro h0; exact absurd (by omega : a = b) hab
        · intro h0; cases h0; exact absurd rfl hab

theorem compareIds_swap (x y : List Int) : compareIds y x = - compareIds x y := by
  induction x generalizing y with
  | nil =>
    cases y with
    | nil => simp [compareIds]
    | cons b ys => simp [compareIds]
  | cons a xs ih =>
    cases y with
    | nil => simp [compareIds]
    | cons b ys =>
      by_cases hab : a = b
      · simp [compareIds, hab, ih]
      · have hba : b ≠ a := fun h => hab h.symm
        simp [compareIds, hab, hba]

theorem compareIds_trans_lt {x y z : List Int}
    (h1 : compareIds x y < 0) (h2 : compareIds y z < 0) : compareIds x z < 0 := by
  induction x generalizing y z with
  | nil =>
    cases y with
    | nil => simpa using h2
    | cons b ys =>
      cases z with
      | nil => simp [compareIds] at h2; omega
      | cons c zs => simp [compareIds]; omega
  | cons a xs ih =>
    cases y with
    | nil => simp [compareIds] at h1; omega
    | cons b ys =>
      cases z with
      | nil => simp [compareIds] at h2; omega
      | cons c zs =>
        by_cases hab : a = b <;> by_cases hbc : b = c
        · subst hab; subst hbc
          simp only [compareIds, if_pos rfl] at h1 h2 ⊢
          exact ih h1 h2
        · subst hab
          simp only [compareIds, if_pos rfl, if_neg hbc] at h2
          have hac : a ≠ c := fun h => hbc h
          simp only [compareIds, if_neg hbc, if_neg hac]
          omega
        · subst hbc
          simp only [compareIds, if_neg hab] at h1
          have hac : a ≠ b := hab
          simp only [compareIds, if_neg hac]
          omega
        · simp only [compareIds, if_neg hab] at h1
          simp only [compareIds, if_neg hbc] at h2
          have hac : a ≠ c := by omega
          simp only [compareIds, if_neg hac]
          omega

theorem compareIds_lt_asymm {x y : List Int}
    (h1 : compareIds x y < 0) (h2 : compareIds y x < 0) : False := by
  rw [compareIds_swap] at h2
  omega

theorem dataSorted_getElem_lt {l : List Character} (hs : DataSorted l)
    {i j : Nat} (hi : i < l.length) (hj : j < l.length) (hij : i < j) :
    compareIds (l[i].id) (l[j].id) < 0 :=
  (List.pairwise_iff_getElem.mp hs) i j hi hj hij

theorem bsearchLoop_eq_rec1 (data : List Character) (t : List Int) (low high : Nat)
    (h : low < high)
    (hc : compareIds (data.getD ((low + high) / 2) chDefault).id t < 0) :
    bsearchLoop data t low high = bsearchLoop data t ((low + high) / 2 + 1) high := by
  rw [bsearchLoop, dif_pos h]
  show (if compareIds (data.getD ((low + high) / 2) chDefault).id t < 0 then
      bsearchLoop data t ((low + high) / 2 + 1) high
    else bsearchLoop data t low ((low + high) / 2)) = _
  rw [if_pos hc]

theorem bsearchLoop_eq_rec2 (data : List Character) (t : List Int) (low high : Nat)
    (h : low < high)
    (hc : ¬ compareIds (data.getD ((low + high) / 2) chDefault).id t < 0) :
    bsearchLoop data t low high = bsearchLoop data t low ((low + high) / 2) := by
  rw [bsearchLoop, dif_pos h]
  show (if compareIds (data.getD ((low + high) / 2) chDefault).id t < 0 then
      bsearchLoop data t ((low + high) / 2 + 1) high
    else bsearchLoop data t low ((low + high) / 2)) = _
  rw [if_neg hc]

theorem bsearchLoop_eq_base (data : List Character) (t : List Int) (low high : Nat)
    (h : ¬ low < high) : bsearchLoop data t low high = low := by
  rw [bsearchLoop]
  simp [h]

theorem bsearchLoop_spec (data : List Character) (t : List Int) (hs : DataSorted data)
    (low high : Nat) (hlh : low ≤ high) (hhl : high ≤ data.length)
    (hlow : ∀ i, i < low → i < data.length →
      compareIds (data.getD i chDefault).id t < 0)
    (hhigh : ∀ i, high ≤ i → i < data.length →
      0 ≤ compareIds (data.getD i chDefault).id t) :
    low ≤ bsearchLoop data t low high ∧ bsearchLoop data t low high ≤ high ∧
    (∀ i, i < bsearchLoop data t low high → i < data.length →
      compareIds (data.getD i chDefault).id t < 0) ∧
    (∀ i, bsearchLoop data t low high ≤ i → i < data.length →
      0 ≤ compareIds (data.getD i chDefault).id t) := by
  induction low, high using bsearchLoop.induct data t with
  | case1 low high hguard mid hcmp ih =>
    have hmv : mid = (low + high) / 2 := rfl
    clear_value mid
    subst hmv
    have hcmp' : compareIds (data.getD ((low + high) / 2) chDefault).id t < 0 := hcmp
    have ih' := ih
    rw [bsearchLoop_eq_rec1 data t low high hguard hcmp']
    have hmlt : (low + high) / 2 < high := by omega
    have hmlen : (low + high) / 2 < data.length := by omega
    have hlow' : ∀ i, i < (low + high) / 2 + 1 → i < data.length →
        compareIds (data.getD i chDefault).id t < 0 := by
      intro i hi hilen
      by_cases hieq : i = (low + high) / 2
      · rw [hieq]; exact hcmp'
      · by_cases hcase : i < low
        · exact hlow i hcase hilen
        · have hilt : i < (low + high) / 2 := by omega
          have hso := dataSorted_getElem_lt hs hilen hmlen hilt
          rw [List.getD_eq_getElem data chDefault hilen]
          rw [List.getD_eq_getElem data chDefault hmlen] at hcmp'
          exact compareIds_trans_lt hso hcmp'
    have hrec := ih' (by omega) hhl hlow' hhigh
    exact ⟨by omega, by omega, hrec.2.2.1, hrec.2.2.2⟩
  | case2 low high hguard mid hcmp ih =>
    have hmv : mid = (low + high) / 2 := rfl
    clear_value mid
    subst hmv
    have hcmp' : ¬ compareIds (data.getD ((low + high) / 2) chDefault).id t < 0 := hcmp
    have ih' := ih
    rw [bsearchLoop_eq_rec2 data t low high hguard hcmp']
    have hmlt : (low + high) / 2 < high := by omega
    have hmlen : (low + high) / 2 < data.length := by omega
    have hhigh' : ∀ i, (low + high) / 2 ≤ i → i < data.length →
        0 ≤ compareIds (data.getD i chDefault).id t := by
      intro i hi hilen
      by_cases hieq : i = (low + high) / 2
      · rw [hieq]; omega
      · by_cases hih : high ≤ i
        · exact hhigh i hih hilen
        · have hilt : (low + high) / 2 < i := by omega
          have hso := dataSorted_getElem_lt hs hmlen hilen hilt
          by_contra hneg
          apply hcmp'
          rw [List.getD_eq_getElem data chDefault hilen] at hneg
          rw [List.getD_eq_getElem data chDefault hmlen]
          exact compareIds_trans_lt hso (by omega)
    have hrec := ih' (by omega) (by omega) hlow hhigh'
    exact ⟨hrec.1, by omega, hrec.2.2.1, hrec.2.2.2⟩
  | case3 low high hguard =>
    rw [bsearchLoop_eq_base data t low high hguard]
    exact ⟨le_refl _, by omega, fun i hi hilen => hlow i hi hilen,
      fun i hi hilen => hhigh i (by omega) hilen⟩

theorem findIndexForId_spec (data : List Character) (t : List Int) (hs : DataSorted data) :
    findIndexForId data t ≤ data.length ∧
    (∀ i, i < findIndexForId data t → i < data.length →
      compareIds (data.getD i chDefault).id t < 0) ∧
    (∀ i, findIndexForId data t ≤ i → i < data.length →
      0 ≤ compareIds (data.getD i chDefault).id t) := by
  have := bsearchLoop_spec data t hs 0 data.length (by omega) (le_refl _)
    (fun i hi _ => absurd hi (by omega)) (fun i hi hilen => absurd hilen (by omega))
  exact ⟨this.2.1, this.2.2.1, this.2.2.2⟩

theorem spliceInsert_perm (l : List Character) (i : Nat) (c : Character) :
    (spliceInsert l i c).Perm (c :: l) := by
  have h := @List.perm_middle _ c (l.take i) (l.drop i)
  rw [List.take_append_drop] at h
  exact h

theorem mem_spliceInsert {l : List Character} {i : Nat} {c a : Character} :
    a ∈ spliceInsert l i c ↔ a = c ∨ a ∈ l := by
  rw [(spliceInsert_perm l i c).mem_iff, List.mem_cons]

theorem spliceInsert_sorted {l : List Character} {c : Character} {r : Nat}
    (hs : DataSorted l)
    (hlow : ∀ i, i < r → i < l.length → compareIds (l.getD i chDefault).id c.id < 0)
    (hhigh : ∀ i, r ≤ i → i < l.length → 0 < compareIds (l.getD i chDefault).id c.id) :
    DataSorted (spliceInsert l r c) := by
  have htake : ∀ a ∈ l.take r, ∃ i, ∃ h : i < l.length, i < r ∧ l[i] = a := by
    intro a ha
    obtain ⟨i, hi, hgi⟩ := List.mem_iff_getElem.mp ha
    have hlen : i < l.length := lt_of_lt_of_le hi (List.take_sublist r l).length_le
    have hir : i < r := by
      have := hi
      simp only [List.length_take] at this
      omega
    exact ⟨i, hlen, hir, by rw [← List.getElem_take l]; exact hgi⟩
  have hdrop : ∀ a ∈ l.drop r, ∃ i, ∃ h : i < l.length, r ≤ i ∧ l[i] = a := by
    intro a ha
    obtain ⟨j, hj, hgj⟩ := List.mem_iff_getElem.mp ha
    have hlen : r + j < l.length := by
      simp only [List.length_drop] at hj
      omega
    exact ⟨r + j, hlen, by omega, by rw [← List.getElem_drop l]; exact hgj⟩
  rw [spliceInsert, DataSorted, List.pairwise_append]
  refine ⟨List.Pairwise.sublist (List.take_sublist r l) hs, ?_, ?_⟩
  · rw [List.pairwise_cons]
    refine ⟨?_, List.Pairwise.sublist (List.drop_sublist r l) hs⟩
    intro b hb
    obtain ⟨i, hlen, hri, hgi⟩ := hdrop b hb
    have := hhigh i hri hlen
    rw [List.getD_eq_getElem l chDefault hlen, hgi] at this
    rw [compareIds_swap] at this
    omega
  · intro a ha b hb
    obtain ⟨i, hileni, hir, hgi⟩ := htake a ha
    rcases List.mem_cons.mp hb with hbc | hbd
    · subst hbc
      have := hlow i hir hileni
      rwa [List.getD_eq_getElem l chDefault hileni, hgi] at this
    · obtain ⟨j, hjlen, hrj, hgj⟩ := hdrop b hbd
      have hij : i < j := by omega
      have := dataSorted_getElem_lt hs hileni hjlen hij
      rwa [hgi, hgj] at this

theorem pairwise_sublist' {l₁ l₂ : List Character} (h : l₁.Sublist l₂) :
    DataSorted l₂ → DataSorted l₁ := fun hs => List.Pairwise.sublist h hs

theorem mem_eraseKey {l : List Character} {k : String} (hnd : KeysNodup l) {c : Character} :
    c ∈ l.eraseP (fun a => decide (key a.id = k)) ↔ c ∈ l ∧ key c.id ≠ k := by
  induction l with
  | nil => simp
  | cons a as ih =>
    have hnd' : KeysNodup as := by
      rw [KeysNodup] at hnd ⊢
      simpa using hnd.of_cons
    by_cases hak : key a.id = k
    · rw [List.eraseP_cons_of_pos (by simpa using hak)]
      constructor
      · intro hc
        refine ⟨List.mem_cons_of_mem _ hc, ?_⟩
        intro hck
        have hmem : key c.id ∈ as.map (fun c => key c.id) := List.mem_map_of_mem _ hc
        rw [KeysNodup, List.map_cons, List.nodup_cons] at hnd
        rw [hck, ← hak] at hmem
        exact hnd.1 hmem
      · rintro ⟨hc, hck⟩
        rcases List.mem_cons.mp hc with rfl | hmem
        · exact absurd hak hck
        · exact hmem
    · rw [List.eraseP_cons_of_neg (by simpa using hak)]
      rw [List.mem_cons, ih hnd', List.mem_cons]
      constructor
      · rintro (rfl | ⟨hc, hck⟩)
        · exact ⟨Or.inl rfl, hak⟩
        · exact ⟨Or.inr hc, hck⟩
      · rintro ⟨rfl | hc, hck⟩
        · exact Or.inl rfl
        · exact Or.inr ⟨hc, hck⟩

theorem apply_insert_tomb {s : State} {op : Operation} (h1 : op.type = "insert")
    (h2 : key op.id ∈ s.tombstones) :
    applyRemoteOperation s op =
      { s with lamportTime := max s.lamportTime op.timestamp + 1 } := by
  simp [applyRemoteOperation, h1, h2]

theorem apply_insert_dup {s : State} {op : Operation} (h1 : op.type = "insert")
    (h2 : key op.id ∉ s.tombstones) (h3 : ∃ c ∈ s.data, key c.id = key op.id) :
    applyRemoteOperation s op =
      { s with lamportTime := max s.lamportTime op.timestamp + 1 } := by
  simp [applyRemoteOperation, h1, h2, h3]

theorem apply_insert_fresh {s : State} {op : Operation} (h1 : op.type = "insert")
    (h2 : key op.id ∉ s.tombstones) (h3 : ¬ ∃ c ∈ s.data, key c.id = key op.id) :
    applyRemoteOperation s op =
      { s with lamportTime := max s.lamportTime op.timestamp + 1,
               data := spliceInsert s.data (findIndexForId s.data op.id) (charOf op) } := by
  simp only [applyRemoteOperation, if_pos h1, if_neg h2, if_neg h3]

theorem apply_delete {s : State} {op : Operation} (h1 : op.type = "delete") :
    applyRemoteOperation s op =
      { s with lamportTime := max s.lamportTime op.timestamp + 1,
               tombstones := insert (key op.id) s.tombstones,
               data := s.data.eraseP (fun c => decide (key c.id = key op.id)) } := by
  have hne : op.type ≠ "insert" := by rw [h1]; decide
  simp only [applyRemoteOperation, if_neg hne, if_pos h1]

theorem apply_other {s : State} {op : Operation} (h1 : op.type ≠ "insert")
    (h2 : op.type ≠ "delete") :
    applyRemoteOperation s op =
      { s with lamportTime := max s.lamportTime op.timestamp + 1 } := by
  simp only [applyRemoteOperation, if_neg h1, if_neg h2]

theorem applyOps_nil (s : State) : applyOps s [] = s := rfl

theorem applyOps_cons (s : State) (op : Operation) (l : List Operation) :
    applyOps s (op :: l) = applyOps (applyRemoteOperation s op) l := rfl

theorem applyOps_append_single (s : State) (l : List Operation) (op : Operation) :
    applyOps s (l ++ [op]) = applyRemoteOperation (applyOps s l) op := by
  rw [applyOps, List.foldl_append]
  rfl

theorem finset_insert_union {k : String} {s t : Finset String} :
    insert k s ∪ t = s ∪ insert k t := by
  ext a
  simp only [Finset.mem_union, Finset.mem_insert]
  tauto

theorem tombstones_apply (s : State) (op : Operation) :
    (applyRemoteOperation s op).tombstones =
      if op.type = "delete" then insert (key op.id) s.tombstones else s.tombstones := by
  by_cases h1 : op.type = "insert"
  · have hne : op.type ≠ "delete" := by rw [h1]; decide
    rw [if_neg hne]
    by_cases h2 : key op.id ∈ s.tombstones
    · rw [apply_insert_tomb h1 h2]
    · by_cases h3 : ∃ c ∈ s.data, key c.id = key op.id
      · rw [apply_insert_dup h1 h2 h3]
      · rw [apply_insert_fresh h1 h2 h3]
  · by_cases h2 : op.type = "delete"
    · rw [if_pos h2, apply_delete h2]
    · rw [if_neg h2, apply_other h1 h2]

theorem tombstones_applyOps (s : State) (ops : List Operation) :
    (applyOps s ops).tombstones = s.tombstones ∪ (deleteKeys ops).toFinset := by
  induction ops generalizing s with
  | nil => simp [applyOps, deleteKeys]
  | cons op l ih =>
    rw [applyOps_cons, ih, tombstones_apply]
    by_cases h : op.type = "delete"
    · rw [if_pos h]
      have : deleteKeys (op :: l) = key op.id :: deleteKeys l := by
        simp [deleteKeys, h]
      rw [this, List.toFinset_cons, finset_insert_union]
    · rw [if_neg h]
      have : deleteKeys (op :: l) = deleteKeys l := by
        simp [deleteKeys, h]
      rw [this]

theorem inv_apply {s : State} (op : Operation)
    (hso : DataSorted s.data) (hnd : KeysNodup s.data) :
    DataSorted (applyRemoteOperation s op).data ∧
      KeysNodup (applyRemoteOperation s op).data := by
  by_cases h1 : op.type = "insert"
  · by_cases h2 : key op.id ∈ s.tombstones
    · rw [apply_insert_tomb h1 h2]
      exact ⟨hso, hnd⟩
    · by_cases h3 : ∃ c ∈ s.data, key c.id = key op.id
      · rw [apply_insert_dup h1 h2 h3]
        exact ⟨hso, hnd⟩
      · rw [apply_insert_fresh h1 h2 h3]
        have hspec := findIndexForId_spec s.data op.id hso
        have hcid : (charOf op).id = op.id := rfl
        constructor
        · refine spliceInsert_sorted hso (fun i hir hilen => ?_) (fun i hri hilen => ?_)
          · rw [hcid]
            exact hspec.2.1 i hir hilen
          · rw [hcid]
            have hge := hspec.2.2 i hri hilen
            have hne0 : compareIds (s.data.getD i chDefault).id op.id ≠ 0 := by
              intro h0
              apply h3
              refine ⟨s.data.getD i chDefault, ?_, ?_⟩
              · rw [List.getD_eq_getElem s.data chDefault hilen]
                exact List.getElem_mem hilen
              · rw [compareIds_eq_zero_iff] at h0
                rw [h0]
            omega
        · rw [KeysNodup]
          have hperm := (spliceInsert_perm s.data (findIndexForId s.data op.id)
            (charOf op)).map (fun c => key c.id)
          rw [hperm.nodup_iff, List.map_cons, List.nodup_cons]
          refine ⟨fun hmem => ?_, hnd⟩
          obtain ⟨d, hd, hdk⟩ := List.mem_map.mp hmem
          exact h3 ⟨d, hd, hdk⟩
  · by_cases h2 : op.type = "delete"
    · rw [apply_delete h2]
      refine ⟨List.Pairwise.sublist (List.eraseP_sublist _) hso, ?_⟩
      rw [KeysNodup]
      exact List.Nodup.sublist (List.Sublist.map _ (List.eraseP_sublist _)) hnd
    · rw [apply_other h1 h2]
      exact ⟨hso, hnd⟩

theorem inv_applyOps_general (ops : List Operation) (s : State)
    (hso : DataSorted s.data) (hnd : KeysNodup s.data) :
    DataSorted (applyOps s ops).data ∧ KeysNodup (applyOps s ops).data := by
  induction ops generalizing s with
  | nil => exact ⟨hso, hnd⟩
  | cons op l ih =>
    rw [applyOps_cons]
    have := inv_apply op hso hnd
    exact ih _ this.1 this.2

theorem inv_applyOps (site : String) (ops : List Operation) :
    DataSorted (applyOps (emptyState site) ops).data ∧
      KeysNodup (applyOps (emptyState site) ops).data :=
  inv_applyOps_general ops (emptyState site) (by simp [emptyState, DataSorted])
    (by simp [emptyState, KeysNodup])

theorem compatible_append_left {l₁ l₂ : List Operation} (h : Compatible (l₁ ++ l₂)) :
    Compatible l₁ :=
  fun o1 h1 o2 h2 hi1 hi2 hk =>
    h o1 (List.mem_append_left _ h1) o2 (List.mem_append_left _ h2) hi1 hi2 hk

theorem compatible_perm {l₁ l₂ : List Operation} (hp : l₁.Perm l₂) (h : Compatible l₁) :
    Compatible l₂ :=
  fun o1 h1 o2 h2 hi1 hi2 hk =>
    h o1 (hp.mem_iff.mpr h1) o2 (hp.mem_iff.mpr h2) hi1 hi2 hk

theorem data_applyOps_mem (site : String) (ops : List Operation) (hc : Compatible ops) :
    ∀ c, c ∈ (applyOps (emptyState site) ops).data ↔
      ((∃ op ∈ ops, op.type = "insert" ∧ charOf op = c) ∧
        key c.id ∉ (applyOps (emptyState site) ops).tombstones) := by
  induction ops using List.reverseRecOn with
  | nil => simp [applyOps, emptyState]
  | append_singleton l op ih =>
    have hcl : Compatible l := compatible_append_left hc
    have ihl := ih hcl
    intro c
    rw [applyOps_append_single]
    have hex : (∃ o ∈ l ++ [op], o.type = "insert" ∧ charOf o = c) ↔
        ((∃ o ∈ l, o.type = "insert" ∧ charOf o = c) ∨
          (op.type = "insert" ∧ charOf op = c)) := by
      simp only [List.mem_append, List.mem_singleton]
      constructor
      · rintro ⟨o, (ho | rfl), hoi, hoc⟩
        · exact Or.inl ⟨o, ho, hoi, hoc⟩
        · exact Or.inr ⟨hoi, hoc⟩
      · rintro (⟨o, ho, hoi, hoc⟩ | ⟨hoi, hoc⟩)
        · exact ⟨o, Or.inl ho, hoi, hoc⟩
        · exact ⟨op, Or.inr rfl, hoi, hoc⟩
    by_cases h1 : op.type = "insert"
    · by_cases h2 : key op.id ∈ (applyOps (emptyState site) l).tombstones
      · rw [apply_insert_tomb h1 h2]
        show c ∈ (applyOps (emptyState site) l).data ↔ _
        rw [ihl c, hex]
        constructor
        · rintro ⟨hexl, hnin⟩
          exact ⟨Or.inl hexl, hnin⟩
        · rintro ⟨hexl | ⟨hoi, hoc⟩, hnin⟩
          · exact ⟨hexl, hnin⟩
          · have : key c.id = key op.id := by rw [← hoc]; rfl
            rw [this] at hnin
            exact absurd h2 hnin
      · by_cases h3 : ∃ d ∈ (applyOps (emptyState site) l).data, key d.id = key op.id
        · rw [apply_insert_dup h1 h2 h3]
          show c ∈ (applyOps (emptyState site) l).data ↔ _
          rw [ihl c, hex]
          constructor
          · rintro ⟨hexl, hnin⟩
            exact ⟨Or.inl hexl, hnin⟩
          · rintro ⟨hexl | ⟨hoi, hoc⟩, hnin⟩
            · exact ⟨hexl, hnin⟩
            · obtain ⟨d, hd, hdk⟩ := h3
              obtain ⟨⟨o', ho', ho'i, ho'c⟩, hdnin⟩ := (ihl d).mp hd
              have hko' : key o'.id = key op.id := by
                have : (charOf o').id = o'.id := rfl
                rw [← hdk, ← ho'c]
                rfl
              have heqop : o' = op :=
                hc o' (List.mem_append_left _ ho') op
                  (List.mem_append_right _ (List.mem_singleton_self op)) ho'i h1 hko'
              have hcd : c = d := by rw [← hoc, ← ho'c, heqop]
              rw [hcd]
              exact (ihl d).mp hd
        · rw [apply_insert_fresh h1 h2 h3]
          show c ∈ spliceInsert _ _ _ ↔ _
          rw [mem_spliceInsert, ihl c, hex]
          constructor
          · rintro (rfl | ⟨hexl, hnin⟩)
            · refine ⟨Or.inr ⟨h1, rfl⟩, ?_⟩
              have : key (charOf op).id = key op.id := rfl
              rw [this]
              exact h2
            · exact ⟨Or.inl hexl, hnin⟩
          · rintro ⟨hexl | ⟨hoi, hoc⟩, hnin⟩
            · exact Or.inr ⟨hexl, hnin⟩
            · exact Or.inl hoc.symm
    · by_cases h2 : op.type = "delete"
      · rw [apply_delete h2]
        have hnd : KeysNodup (applyOps (emptyState site) l).data := (inv_applyOps site l).2
        show c ∈ List.eraseP _ _ ↔ _
        rw [mem_eraseKey hnd, ihl c, hex]
        have hno : ¬ (op.type = "insert" ∧ charOf op = c) := by
          rintro ⟨hoi, _⟩
          rw [h2] at hoi
          exact absurd hoi (by decide)
        constructor
        · rintro ⟨⟨hexl, hnin⟩, hck⟩
          refine ⟨Or.inl hexl, ?_⟩
          intro hmem
          rcases Finset.mem_insert.mp hmem with heq | hmem'
          · exact hck heq
          · exact hnin hmem'
        · rintro ⟨hexl | hbad, hnin⟩
          · refine ⟨⟨hexl, fun hmem => hnin (Finset.mem_insert_of_mem hmem)⟩, ?_⟩
            intro heq
            exact hnin (heq ▸ Finset.mem_insert_self _ _)
          · exact absurd hbad hno
      · rw [apply_other h1 h2]
        show c ∈ (applyOps (emptyState site) l).data ↔ _
        rw [ihl c, hex]
        have hno : ¬ (op.type = "insert" ∧ charOf op = c) := fun ⟨hoi, _⟩ => h1 hoi
        constructor
        · rintro ⟨hexl, hnin⟩
          exact ⟨Or.inl hexl, hnin⟩
        · rintro ⟨hexl | hbad, hnin⟩
          · exact ⟨hexl, hnin⟩
          · exact absurd hbad hno

theorem tombstones_converge (site1 site2 : String) {l1 l2 : List Operation}
    (hp : l1.Perm l2) :
    (applyOps (emptyState site1) l1).tombstones =
      (applyOps (emptyState site2) l2).tombstones := by
  rw [tombstones_applyOps, tombstones_applyOps]
  have hdp : (deleteKeys l1).Perm (deleteKeys l2) := by
    simp only [deleteKeys]
    exact List.Perm.map _ (List.Perm.filter _ hp)
  rw [List.toFinset_eq_of_perm _ _ hdp]
  simp [emptyState]

theorem data_converge (site1 site2 : String) {l1 l2 : List Operation}
    (hp : l1.Perm l2) (hc : Compatible l1) :
    (applyOps (emptyState site1) l1).data = (applyOps (emptyState site2) l2).data := by
  have hc2 : Compatible l2 := compatible_perm hp hc
  have hinv1 := inv_applyOps site1 l1
  have hinv2 := inv_applyOps site2 l2
  have hnd1 : (applyOps (emptyState site1) l1).data.Nodup :=
    List.Nodup.of_map _ hinv1.2
  have hnd2 : (applyOps (emptyState site2) l2).data.Nodup :=
    List.Nodup.of_map _ hinv2.2
  have hmem : ∀ c, c ∈ (applyOps (emptyState site1) l1).data ↔
      c ∈ (applyOps (emptyState site2) l2).data := by
    intro c
    rw [data_applyOps_mem site1 l1 hc c, data_applyOps_mem site2 l2 hc2 c]
    rw [tombstones_converge site1 site2 hp]
    constructor
    · rintro ⟨⟨o, ho, hoi, hoc⟩, hnin⟩
      exact ⟨⟨o, hp.mem_iff.mp ho, hoi, hoc⟩, hnin⟩
    · rintro ⟨⟨o, ho, hoi, hoc⟩, hnin⟩
      exact ⟨⟨o, hp.mem_iff.mpr ho, hoi, hoc⟩, hnin⟩
  have hperm : (applyOps (emptyState site1) l1).data.Perm
      (applyOps (emptyState site2) l2).data := by
    refine List.perm_of_nodup_nodup_toFinset_eq hnd1 hnd2 ?_
    ext c
    rw [List.mem_toFinset, List.mem_toFinset]
    exact hmem c
  haveI : IsAntisymm Character (fun a b => compareIds a.id b.id < 0) :=
    ⟨fun a b h1 h2 => (compareIds_lt_asymm h1 h2).elim⟩
  exact List.eq_of_perm_of_sorted hperm hinv1.1 hinv2.1

end Part001

namespace MainEditor

theorem insert_tomb_eq_m {s : State} {op : Operation} (h1 : op.type = "insert")
    (h2 : key op.id ∈ s.tombstones) :
    applyRemoteOperation s op =
      { s with lamportTime := max s.lamportTime op.timestamp + 1 } := by
  simp [applyRemoteOperation, h1, h2]

theorem insert_dup_eq_m {s : State} {op : Operation} (h1 : op.type = "insert")
    (h2 : key op.id ∉ s.tombstones) (h3 : ∃ c ∈ s.data, key c.id = key op.id) :
    applyRemoteOperation s op =
      { s with lamportTime := max s.lamportTime op.timestamp + 1 } := by
  simp [applyRemoteOperation, h1, h2, h3]

theorem insert_fresh_eq_m {s : State} {op : Operation} (h1 : op.type = "insert")
    (h2 : key op.id ∉ s.tombstones) (h3 : ¬ ∃ c ∈ s.data, key c.id = key op.id) :
    applyRemoteOperation s op =
      { s with lamportTime := max s.lamportTime op.timestamp + 1,
               data := spliceInsert s.data (min (op.position.getD 0) (s.data.length : Int))
                 ⟨op.id, op.value, op.timestamp, op.siteId, op.position.getD 0⟩ } := by
  simp only [applyRemoteOperation, if_pos h1, if_neg h2, if_neg h3]

theorem delete_eq_m {s : State} {op : Operation} (h1 : op.type = "delete") :
    applyRemoteOperation s op =
      { s with lamportTime := max s.lamportTime op.timestamp + 1,
               tombstones := insert (key op.id) s.tombstones,
               data := s.data.eraseP (fun c => decide (key c.id = key op.id)) } := by
  have hne : op.type ≠ "insert" := by rw [h1]; decide
  simp only [applyRemoteOperation, if_neg hne, if_pos h1]

theorem other_eq_m {s : State} {op : Operation} (h1 : op.type ≠ "insert")
    (h2 : op.type ≠ "delete") :
    applyRemoteOperation s op =
      { s with lamportTime := max s.lamportTime op.timestamp + 1 } := by
  simp only [applyRemoteOperation, if_neg h1, if_neg h2]

theorem mem_spliceInsert_m {l : List Character} {i : Int} {c a : Character} :
    a ∈ spliceInsert l i c ↔ a = c ∨ a ∈ l := by
  rw [spliceInsert]
  have h := @List.perm_middle _ c (l.take (jsSpliceIndex l.length i))
    (l.drop (jsSpliceIndex l.length i))
  rw [List.take_append_drop] at h
  rw [h.mem_iff, List.mem_cons]

theorem mem_eraseKey_m {l : List Character} {k : String}
    (hnd : (l.map (fun c => key c.id)).Nodup) {c : Character} :
    c ∈ l.eraseP (fun a => decide (key a.id = k)) ↔ c ∈ l ∧ key c.id ≠ k := by
  induction l with
  | nil => simp
  | cons a as ih =>
    have hnd' : (as.map (fun c => key c.id)).Nodup := by
      simpa using hnd.of_cons
    by_cases hak : key a.id = k
    · rw [List.eraseP_cons_of_pos (by simpa using hak)]
      constructor
      · intro hc
        refine ⟨List.mem_cons_of_mem _ hc, ?_⟩
        intro hck
        have hmem : key c.id ∈ as.map (fun c => key c.id) := List.mem_map_of_mem _ hc
        rw [List.map_cons, List.nodup_cons] at hnd
        rw [hck, ← hak] at hmem
        exact hnd.1 hmem
      · rintro ⟨hc, hck⟩
        rcases List.mem_cons.mp hc with rfl | hmem
        · exact absurd hak hck
        · exact hmem
    · rw [List.eraseP_cons_of_neg (by simpa using hak)]
      rw [List.mem_cons, ih hnd', List.mem_cons]
      constructor
      · rintro (rfl | ⟨hc, hck⟩)
        · exact ⟨Or.inl rfl, hak⟩
        · exact ⟨Or.inr hc, hck⟩
      · rintro ⟨rfl | hc, hck⟩
        · exact Or.inl rfl
        · exact Or.inr ⟨hc, hck⟩

theorem idem_proj_m {s : State} (op : Operation)
    (hnd : (s.data.map (fun c => key c.id)).Nodup) :
    (applyRemoteOperation (applyRemoteOperation s op) op).data =
        (applyRemoteOperation s op).data ∧
      (applyRemoteOperation (applyRemoteOperation s op) op).tombstones =
        (applyRemoteOperation s op).tombstones := by
  by_cases h1 : op.type = "insert"
  · by_cases h2 : key op.id ∈ s.tombstones
    · rw [insert_tomb_eq_m h1 h2,
        @insert_tomb_eq_m { s with lamportTime := max s.lamportTime op.timestamp + 1 } op h1 h2]
      exact ⟨rfl, rfl⟩
    · by_cases h3 : ∃ c ∈ s.data, key c.id = key op.id
      · rw [insert_dup_eq_m h1 h2 h3,
          @insert_dup_eq_m { s with lamportTime := max s.lamportTime op.timestamp + 1 } op h1 h2 h3]
        exact ⟨rfl, rfl⟩
      · rw [insert_fresh_eq_m h1 h2 h3]
        have h3' : ∃ c ∈ (spliceInsert s.data (min (op.position.getD 0) (s.data.length : Int))
            ⟨op.id, op.value, op.timestamp, op.siteId, op.position.getD 0⟩),
            key c.id = key op.id :=
          ⟨⟨op.id, op.value, op.timestamp, op.siteId, op.position.getD 0⟩,
            mem_spliceInsert_m.mpr (Or.inl rfl), rfl⟩
        rw [@insert_dup_eq_m
          { s with lamportTime := max s.lamportTime op.timestamp + 1,
                   data := spliceInsert s.data (min (op.position.getD 0) (s.data.length : Int))
                     ⟨op.id, op.value, op.timestamp, op.siteId, op.position.getD 0⟩ }
          op h1 h2 h3']
        exact ⟨rfl, rfl⟩
  · by_cases h2 : op.type = "delete"
    · rw [@delete_eq_m s op h2,
        @delete_eq_m
          { s with lamportTime := max s.lamportTime op.timestamp + 1,
                   tombstones := insert (key op.id) s.tombstones,
                   data := s.data.eraseP (fun c => decide (key c.id = key op.id)) }
          op h2]
      constructor
      · show List.eraseP _ (List.eraseP _ s.data) = List.eraseP _ s.data
        refine List.eraseP_of_forall_not ?_
        intro a ha
        have := (mem_eraseKey_m hnd).mp ha
        simpa using this.2
      · show insert (key op.id) (insert (key op.id) s.tombstones) = _
        rw [Finset.insert_idem]
    · rw [@other_eq_m s op h1 h2,
        @other_eq_m { s with lamportTime := max s.lamportTime op.timestamp + 1 } op h1 h2]
      exact ⟨rfl, rfl⟩

end MainEditor

namespace Part001

theorem idem_proj_p {s : State} (op : Operation) (hnd : KeysNodup s.data) :
    (applyRemoteOperation (applyRemoteOperation s op) op).data =
        (applyRemoteOperation s op).data ∧
      (applyRemoteOperation (applyRemoteOperation s op) op).tombstones =
        (applyRemoteOperation s op).tombstones := by
  by_cases h1 : op.type = "insert"
  · by_cases h2 : key op.id ∈ s.tombstones
    · rw [apply_insert_tomb h1 h2,
        @apply_insert_tomb { s with lamportTime := max s.lamportTime op.timestamp + 1 } op h1 h2]
      exact ⟨rfl, rfl⟩
    · by_cases h3 : ∃ c ∈ s.data, key c.id = key op.id
      · rw [apply_insert_dup h1 h2 h3,
          @apply_insert_dup { s with lamportTime := max s.lamportTime op.timestamp + 1 } op h1 h2 h3]
        exact ⟨rfl, rfl⟩
      · rw [apply_insert_fresh h1 h2 h3]
        have h3' : ∃ c ∈ (spliceInsert s.data (findIndexForId s.data op.id) (charOf op)),
            key c.id = key op.id :=
          ⟨charOf op, mem_spliceInsert.mpr (Or.inl rfl), rfl⟩
        rw [@apply_insert_dup
          { s with lamportTime := max s.lamportTime op.timestamp + 1,
                   data := spliceInsert s.data (findIndexForId s.data op.id) (charOf op) }
          op h1 h2 h3']
        exact ⟨rfl, rfl⟩
  · by_cases h2 : op.type = "delete"
    · rw [@apply_delete s op h2,
        @apply_delete
          { s with lamportTime := max s.lamportTime op.timestamp + 1,
                   tombstones := insert (key op.id) s.tombstones,
                   data := s.data.eraseP (fun c => decide (key c.id = key op.id)) }
          op h2]
      constructor
      · show List.eraseP _ (List.eraseP _ s.data) = List.eraseP _ s.data
        refine List.eraseP_of_forall_not ?_
        intro a ha
        have := (mem_eraseKey hnd).mp ha
        simpa using this.2
      · show insert (key op.id) (insert (key op.id) s.tombstones) = _
        rw [Finset.insert_idem]
    · rw [@apply_other s op h1 h2,
        @apply_other { s with lamportTime := max s.lamportTime op.timestamp + 1 } op h1 h2]
      exact ⟨rfl, rfl⟩

end Part001

/-- C1 counterexample: the position-indexed `applyRemoteOperation` of
`CRDTTextEditor.js` is not convergent.  The two remote inserts `cexOpA`
and `cexOpB` (distinct ids, both carrying position 0) produce different
live sequences under the two delivery orders, although the operation
lists are permutations of each other. -/
theorem claim_C1_counterexample :
    ([MainEditor.cexOpA, MainEditor.cexOpB] : List MainEditor.Operation).Perm
      [MainEditor.cexOpB, MainEditor.cexOpA] ∧
    (MainEditor.applyOps (MainEditor.emptyState "site")
        [MainEditor.cexOpA, MainEditor.cexOpB]).data ≠
      (MainEditor.applyOps (MainEditor.emptyState "site")
        [MainEditor.cexOpB, MainEditor.cexOpA]).data := by
  constructor
  · exact List.Perm.swap _ _ _
  · decide

/-- C1 (amended): convergence holds for the fractional-id variant
(`part_001`).  For any two permutations of an operation list whose insert
operations are compatible (no two distinct inserts share an id key),
applying them to initially empty replicas via `applyRemoteOperation`
yields equal live sequences and equal tombstone sets. -/
theorem claim_C1 (site1 site2 : String) (l1 l2 : List Part001.Operation)
    (hp : l1.Perm l2) (hc : Part001.Compatible l1) :
    (Part001.applyOps (Part001.emptyState site1) l1).data =
      (Part001.applyOps (Part001.emptyState site2) l2).data ∧
    (Part001.applyOps (Part001.emptyState site1) l1).tombstones =
      (Part001.applyOps (Part001.emptyState site2) l2).tombstones :=
  ⟨Part001.data_converge site1 site2 hp hc, Part001.tombstones_converge site1 site2 hp⟩

/-- C1 witness: a concrete insert/delete pair applied in both orders. -/
theorem claim_C1_witness :
    ([(⟨"insert", [1], "a", 0, "s"⟩ : Part001.Operation),
        ⟨"delete", [1], "", 1, "s"⟩].Perm
      [⟨"delete", [1], "", 1, "s"⟩, ⟨"insert", [1], "a", 0, "s"⟩]) ∧
    Part001.Compatible
      [(⟨"insert", [1], "a", 0, "s"⟩ : Part001.Operation), ⟨"delete", [1], "", 1, "s"⟩] ∧
    ((Part001.applyOps (Part001.emptyState "p")
          [⟨"insert", [1], "a", 0, "s"⟩, ⟨"delete", [1], "", 1, "s"⟩]).data =
        (Part001.applyOps (Part001.emptyState "q")
          [⟨"delete", [1], "", 1, "s"⟩, ⟨"insert", [1], "a", 0, "s"⟩]).data ∧
      (Part001.applyOps (Part001.emptyState "p")
          [⟨"insert", [1], "a", 0, "s"⟩, ⟨"delete", [1], "", 1, "s"⟩]).tombstones =
        (Part001.applyOps (Part001.emptyState "q")
          [⟨"delete", [1], "", 1, "s"⟩, ⟨"insert", [1], "a", 0, "s"⟩]).tombstones) :=
  ⟨List.Perm.swap _ _ _, by unfold Part001.Compatible; decide,
    claim_C1 "p" "q" _ _ (List.Perm.swap _ _ _) (by unfold Part001.Compatible; decide)⟩

/-- C2: both `generateIdBetween` implementations violate the strict
betweenness contract.  The main variant, asked for an id below
`[0, 1000000]` (an id it itself produces for front inserts), returns
`[0, 1000000]` itself — mistaking the falsy component `0` for an absent
one.  The `part_001` variant, asked for an id between the adjacent ids
`[1] < [2]`, returns `[1]`, equal to the lower bound. -/
theorem claim_C2 :
    MainEditor.generateIdBetween none (some [0, 1000000]) 0 = [0, 1000000] ∧
    ¬ (Part001.compareIds (MainEditor.generateIdBetween none (some [0, 1000000]) 0)
        [0, 1000000] < 0) ∧
    Part001.compareIds [1] [2] < 0 ∧
    Part001.generateIdBetween (some [1]) (some [2]) 0 = [1] ∧
    ¬ (Part001.compareIds [1] (Part001.generateIdBetween (some [1]) (some [2]) 0) < 0) := by
  have h1 : MainEditor.generateIdBetween none (some [0, 1000000]) 0 = [0, 1000000] := by
    rw [MainEditor.generateIdBetween]
    norm_num [MainEditor.getOr0, MainEditor.BASE]
  have h2 : Part001.generateIdBetween (some [1]) (some [2]) 0 = [1] := by
    rw [Part001.generateIdBetween]
    norm_num
    rw [Part001.generateIdBetween]
    norm_num
  rw [h1, h2]
  refine ⟨rfl, by decide, by decide, rfl, by decide⟩

/-- C3 counterexample: the live sequence of the main variant is not kept
in ascending `compareIds` order: two successive `localInsert`s at index 0
store the newer (larger-timestamp) id before the older one. -/
theorem claim_C3_counterexample :
    ¬ ((MainEditor.localInsert
          (MainEditor.localInsert (MainEditor.emptyState "s") 0 "a").1 0 "b").1.data.Pairwise
        (fun a b => MainEditor.ltB (MainEditor.compareIds a.id b.id) = true)) := by
  decide

/-- C3 (amended): for the fractional-id variant (`part_001`), after any
sequence of `applyRemoteOperation` starting from the empty replica the
live sequence is strictly ascending under `compareIds` (hence duplicate
free).  The main variant's `localInsert` does not preserve this order. -/
theorem claim_C3 (site : String) (ops : List Part001.Operation) :
    ((Part001.applyOps (Part001.emptyState site) ops).data).Pairwise
      (fun a b => Part001.compareIds a.id b.id < 0) :=
  (Part001.inv_applyOps site ops).1

/-- C4 counterexample: applying the same operation twice does not leave
the replica in the same state as applying it once — the Lamport clock
advances again on the second application. -/
theorem claim_C4_counterexample :
    MainEditor.applyRemoteOperation
        (MainEditor.applyRemoteOperation (MainEditor.emptyState "s")
          ⟨"delete", [.num 1], "", 0, "", none⟩)
        ⟨"delete", [.num 1], "", 0, "", none⟩ ≠
      MainEditor.applyRemoteOperation (MainEditor.emptyState "s")
        ⟨"delete", [.num 1], "", 0, "", none⟩ := by
  decide

/-- C4 (amended): idempotence holds for the live sequence and the
tombstone set (in both editor variants, provided the live sequence has no
duplicate id keys), but not for the Lamport clock. -/
theorem claim_C4 (s : MainEditor.State) (op : MainEditor.Operation)
    (t : Part001.State) (q : Part001.Operation)
    (h1 : (s.data.map (fun c => MainEditor.key c.id)).Nodup)
    (h2 : Part001.KeysNodup t.data) :
    ((MainEditor.applyRemoteOperation (MainEditor.applyRemoteOperation s op) op).data =
        (MainEditor.applyRemoteOperation s op).data ∧
      (MainEditor.applyRemoteOperation (MainEditor.applyRemoteOperation s op) op).tombstones =
        (MainEditor.applyRemoteOperation s op).tombstones) ∧
    ((Part001.applyRemoteOperation (Part001.applyRemoteOperation t q) q).data =
        (Part001.applyRemoteOperation t q).data ∧
      (Part001.applyRemoteOperation (Part001.applyRemoteOperation t q) q).tombstones =
        (Part001.applyRemoteOperation t q).tombstones) :=
  ⟨MainEditor.idem_proj_m op h1, Part001.idem_proj_p q h2⟩

/-- C4 witness: idempotence of the data/tombstone projections at a
concrete delete operation on empty replicas. -/
theorem claim_C4_witness :
    ((MainEditor.emptyState "s").data.map (fun c => MainEditor.key c.id)).Nodup ∧
    Part001.KeysNodup (Part001.emptyState "t").data ∧
    ((MainEditor.applyRemoteOperation
          (MainEditor.applyRemoteOperation (MainEditor.emptyState "s")
            ⟨"delete", [.num 1], "", 0, "", none⟩)
          ⟨"delete", [.num 1], "", 0, "", none⟩).data =
        (MainEditor.applyRemoteOperation (MainEditor.emptyState "s")
          ⟨"delete", [.num 1], "", 0, "", none⟩).data ∧
      (MainEditor.applyRemoteOperation
          (MainEditor.applyRemoteOperation (MainEditor.emptyState "s")
            ⟨"delete", [.num 1], "", 0, "", none⟩)
          ⟨"delete", [.num 1], "", 0, "", none⟩).tombstones =
        (MainEditor.applyRemoteOperation (MainEditor.emptyState "s")
          ⟨"delete", [.num 1], "", 0, "", none⟩).tombstones) ∧
    ((Part001.applyRemoteOperation
          (Part001.applyRemoteOperation (Part001.emptyState "t")
            ⟨"delete", [1], "", 0, "u"⟩)
          ⟨"delete", [1], "", 0, "u"⟩).data =
        (Part001.applyRemoteOperation (Part001.emptyState "t")
          ⟨"delete", [1], "", 0, "u"⟩).data ∧
      (Part001.applyRemoteOperation
          (Part001.applyRemoteOperation (Part001.emptyState "t")
            ⟨"delete", [1], "", 0, "u"⟩)
          ⟨"delete", [1], "", 0, "u"⟩).tombstones =
        (Part001.applyRemoteOperation (Part001.emptyState "t")
          ⟨"delete", [1], "", 0, "u"⟩).tombstones) := by
  have h := claim_C4 (MainEditor.emptyState "s") ⟨"delete", [.num 1], "", 0, "", none⟩
    (Part001.emptyState "t") ⟨"delete", [1], "", 0, "u"⟩ (by decide)
    (by unfold Part001.KeysNodup; decide)
  exact ⟨by decide, by unfold Part001.KeysNodup; decide, h.1, h.2⟩

/-- C5: delete wins over a late insert in `CRDTTextEditor.js`.  After a
remote delete of id `x` followed by a remote insert with the same id, the
key of `x` is in the tombstone set and no live character carries it
(provided the live sequence had no duplicate id keys). -/
theorem claim_C5 (s : MainEditor.State) (dop iop : MainEditor.Operation)
    (hd : dop.type = "delete") (hi : iop.type = "insert") (hid : iop.id = dop.id)
    (hnd : (s.data.map (fun c => MainEditor.key c.id)).Nodup) :
    MainEditor.key dop.id ∈
      (MainEditor.applyRemoteOperation
        (MainEditor.applyRemoteOperation s dop) iop).tombstones ∧
    ∀ c ∈ (MainEditor.applyRemoteOperation
        (MainEditor.applyRemoteOperation s dop) iop).data,
      MainEditor.key c.id ≠ MainEditor.key dop.id := by
  rw [@MainEditor.delete_eq_m s dop hd]
  have h2 : MainEditor.key iop.id ∈
      ({ s with lamportTime := max s.lamportTime dop.timestamp + 1,
                tombstones := insert (MainEditor.key dop.id) s.tombstones,
                data := s.data.eraseP
                  (fun c => decide (MainEditor.key c.id = MainEditor.key dop.id)) } :
        MainEditor.State).tombstones := by
    show MainEditor.key iop.id ∈ insert (MainEditor.key dop.id) s.tombstones
    rw [hid]
    exact Finset.mem_insert_self _ _
  rw [MainEditor.insert_tomb_eq_m hi h2]
  constructor
  · show MainEditor.key dop.id ∈ insert (MainEditor.key dop.id) s.tombstones
    exact Finset.mem_insert_self _ _
  · intro c hc
    have hmem : c ∈ s.data.eraseP
        (fun a => decide (MainEditor.key a.id = MainEditor.key dop.id)) := hc
    exact ((MainEditor.mem_eraseKey_m hnd).mp hmem).2

/-- C5 witness: concrete delete-then-insert of the same id on the empty
replica. -/
theorem claim_C5_witness :
    (⟨"delete", [.num 1], "", 0, "", none⟩ : MainEditor.Operation).type = "delete" ∧
    (⟨"insert", [.num 1], "x", 1, "r", some 0⟩ : MainEditor.Operation).type = "insert" ∧
    (⟨"insert", [.num 1], "x", 1, "r", some 0⟩ : MainEditor.Operation).id =
      (⟨"delete", [.num 1], "", 0, "", none⟩ : MainEditor.Operation).id ∧
    ((MainEditor.emptyState "s").data.map (fun c => MainEditor.key c.id)).Nodup ∧
    (MainEditor.key (⟨"delete", [.num 1], "", 0, "", none⟩ : MainEditor.Operation).id ∈
      (MainEditor.applyRemoteOperation
        (MainEditor.applyRemoteOperation (MainEditor.emptyState "s")
          ⟨"delete", [.num 1], "", 0, "", none⟩)
        ⟨"insert", [.num 1], "x", 1, "r", some 0⟩).tombstones ∧
    ∀ c ∈ (MainEditor.applyRemoteOperation
        (MainEditor.applyRemoteOperation (MainEditor.emptyState "s")
          ⟨"delete", [.num 1], "", 0, "", none⟩)
        ⟨"insert", [.num 1], "x", 1, "r", some 0⟩).data,
      MainEditor.key c.id ≠
        MainEditor.key (⟨"delete", [.num 1], "", 0, "", none⟩ : MainEditor.Operation).id) :=
  ⟨rfl, rfl, rfl, by decide,
    claim_C5 (MainEditor.emptyState "s") ⟨"delete", [.num 1], "", 0, "", none⟩
      ⟨"insert", [.num 1], "x", 1, "r", some 0⟩ rfl rfl rfl (by decide)⟩

/-- C6: relay behaviour at the message handler.  A well-formed sync
operation message is fanned out to every other open participant followed
by a success acknowledgement to the sender; but on malformed input the
handler raises (the `catch` block references the `try`-scoped `data`) and
sends nothing — in particular no `success: false` acknowledgement. -/
theorem claim_C6 :
    (∀ (clients : List Relay.Client) (sender : Relay.Client),
      Relay.handleMessage clients sender none = ([], true)) ∧
    Relay.handleMessage [⟨0, 1⟩, ⟨1, 1⟩, ⟨2, 0⟩] ⟨0, 1⟩
        (some ⟨"operation", ⟨some "op-1", "payload"⟩, true⟩) =
      ([⟨1, .operation ⟨some "op-1", "payload"⟩⟩,
        ⟨0, .operationAck "op-1" true⟩], false) := by
  constructor
  · intro clients sender
    rfl
  · decide

/-- C7 counterexample: `enqueue` does not preserve the operation's `id`
field — the spread record overwrites it with the generated queue id, so
two operations differing only in `id` enqueue to identical records. -/
theorem claim_C7_counterexample :
    OfflineQueueM.enqueue ⟨[], []⟩ ⟨"insert", [1], "a", 1, "s"⟩ 7 "r" =
      OfflineQueueM.enqueue ⟨[], []⟩ ⟨"insert", [2], "a", 1, "s"⟩ 7 "r" ∧
    (⟨"insert", [1], "a", 1, "s"⟩ : OfflineQueueM.COp) ≠ ⟨"insert", [2], "a", 1, "s"⟩ := by
  constructor
  · rfl
  · decide

/-- C7 (amended): `enqueue` appends a record carrying the operation's
`type`, `value`, `timestamp` and `siteId` unchanged, with the `id` field
overwritten by the generated queue id and a `queuedAt` timestamp; the
queue is persisted, and `getAll` returns the records in enqueue order. -/
theorem claim_C7 (q : OfflineQueueM.Queue) (op : OfflineQueueM.COp)
    (now : Int) (rand : String) :
    (OfflineQueueM.enqueue q op now rand).1.operations =
        q.operations ++ [(OfflineQueueM.enqueue q op now rand).2] ∧
    (OfflineQueueM.enqueue q op now rand).1.storage =
        (OfflineQueueM.enqueue q op now rand).1.operations ∧
    (OfflineQueueM.enqueue q op now rand).2.type = op.type ∧
    (OfflineQueueM.enqueue q op now rand).2.value = op.value ∧
    (OfflineQueueM.enqueue q op now rand).2.timestamp = op.timestamp ∧
    (OfflineQueueM.enqueue q op now rand).2.siteId = op.siteId ∧
    (OfflineQueueM.enqueue q op now rand).2.queuedAt = now ∧
    (OfflineQueueM.enqueue q op now rand).2.id = OfflineQueueM.generateOperationId now rand ∧
    OfflineQueueM.getAll (OfflineQueueM.enqueue q op now rand).1 =
      q.operations ++ [(OfflineQueueM.enqueue q op now rand).2] :=
  ⟨rfl, rfl, rfl, rfl, rfl, rfl, rfl, rfl, rfl⟩

/-- C8 counterexample: `localInsert` performs no index validation — an
out-of-range index is clamped by `splice` and the insert succeeds with a
state change instead of failing with `InvalidIndex`. -/
theorem claim_C8_counterexample :
    (MainEditor.localInsert (MainEditor.emptyState "s") 5 "a").1 ≠
        MainEditor.emptyState "s" ∧
    (MainEditor.localInsert (MainEditor.emptyState "s") 5 "a").1.data.length = 1 := by
  constructor
  · decide
  · rfl

/-- C8 (amended): `localDelete` with an out-of-range index returns `null`
with no state change; `localInsert` performs no index validation. -/
theorem claim_C8 (s : MainEditor.State) (index : Int)
    (h : index < 0 ∨ (s.data.length : Int) ≤ index) :
    MainEditor.localDelete s index = (s, none) := by
  rw [MainEditor.localDelete, if_pos h]

/-- C8 witness: deleting at index 3 of the empty replica is a no-op. -/
theorem claim_C8_witness :
    ((3 : Int) < 0 ∨ (((MainEditor.emptyState "s").data.length : Int) ≤ 3)) ∧
    MainEditor.localDelete (MainEditor.emptyState "s") 3 =
      (MainEditor.emptyState "s", none) :=
  ⟨by decide, claim_C8 (MainEditor.emptyState "s") 3 (by decide)⟩

/-- C9 (amended): with both bounds nil, the main variant's
`generateIdBetween` returns `[1000000]` (the code's `BASE` is `10^6`) and
the `part_001` variant returns `[1]`; neither is the `2^20` of the claim. -/
theorem claim_C9 :
    MainEditor.generateIdBetween none none 0 = [1000000] ∧
    Part001.generateIdBetween none none 0 = [1] ∧
    (1000000 : Int) ≠ 2 ^ 20 := by
  refine ⟨?_, ?_, by decide⟩
  · rw [MainEditor.generateIdBetween]
    decide
  · rw [Part001.generateIdBetween]
    norm_num

/-- C9 counterexample: identifier generation on the empty document does
not return the single-component vector `(2^20)`. -/
theorem claim_C9_counterexample :
    MainEditor.generateIdBetween none none 0 ≠ [(2 : Int) ^ 20] ∧
    Part001.generateIdBetween none none 0 ≠ [(2 : Int) ^ 20] := by
  constructor
  · rw [MainEditor.generateIdBetween]
    decide
  · rw [Part001.generateIdBetween]
    norm_num

/-- C10: an operation whose type is neither `insert` nor `delete` only
advances the Lamport clock to `max(current, op.timestamp) + 1`; the live
sequence and tombstone set (indeed the whole rest of the state) are
unchanged, in both editor variants. -/
theorem claim_C10 (s : MainEditor.State) (op : MainEditor.Operation)
    (t : Part001.State) (q : Part001.Operation)
    (h1 : op.type ≠ "insert") (h2 : op.type ≠ "delete")
    (h3 : q.type ≠ "insert") (h4 : q.type ≠ "delete") :
    MainEditor.applyRemoteOperation s op =
      { s with lamportTime := max s.lamportTime op.timestamp + 1 } ∧
    Part001.applyRemoteOperation t q =
      { t with lamportTime := max t.lamportTime q.timestamp + 1 } :=
  ⟨MainEditor.other_eq_m h1 h2, Part001.apply_other h3 h4⟩

/-- C10 witness: a `users_update`-typed operation on the empty replicas
only advances the Lamport clock. -/
theorem claim_C10_witness :
    (⟨"users_update", [], "", 5, "", none⟩ : MainEditor.Operation).type ≠ "insert" ∧
    (⟨"users_update", [], "", 5, "", none⟩ : MainEditor.Operation).type ≠ "delete" ∧
    (⟨"users_update", [], "", 5, "u"⟩ : Part001.Operation).type ≠ "insert" ∧
    (⟨"users_update", [], "", 5, "u"⟩ : Part001.Operation).type ≠ "delete" ∧
    (MainEditor.applyRemoteOperation (MainEditor.emptyState "s")
        ⟨"users_update", [], "", 5, "", none⟩ =
      { MainEditor.emptyState "s" with
          lamportTime := max (MainEditor.emptyState "s").lamportTime 5 + 1 } ∧
    Part001.applyRemoteOperation (Part001.emptyState "t")
        ⟨"users_update", [], "", 5, "u"⟩ =
      { Part001.emptyState "t" with
          lamportTime := max (Part001.emptyState "t").lamportTime 5 + 1 }) :=
  ⟨by decide, by decide, by decide, by decide,
    claim_C10 (MainEditor.emptyState "s") ⟨"users_update", [], "", 5, "", none⟩
      (Part001.emptyState "t") ⟨"users_update", [], "", 5, "u"⟩
      (by decide) (by decide) (by decide) (by decide)⟩
